import Mathlib

/-!
Verification development for the screenshot-agent program
(`src/ScreenSHotAgent.py`).

The program is a single-threaded polling loop over two keyboard signals
(`toggle` = Caps Lock, `captureOne` = Right Shift) mutating three globals:
`screenshots` (base64 strings), `screenshot_paths` (saved file paths) and
`is_collecting` (a Bool flag).  All interaction with the outside world
(screen grab, Telegram HTTP calls, Gemini HTTP call, clock) is modelled by
an environment record of oracle values, and every external call performed
by the program is recorded in an event trace.
-/

/-- Decimal digit character, as produced by Python `str()` for one digit
`0 ≤ n < 10` (the final catch-all arm is never reached on that range). -/
def digitChar : Nat → Char
  | 0 => '0'
  | 1 => '1'
  | 2 => '2'
  | 3 => '3'
  | 4 => '4'
  | 5 => '5'
  | 6 => '6'
  | 7 => '7'
  | 8 => '8'
  | _ => '9'

/-- Fuel-based decimal printer (most significant digit first), modelling
Python `str(n)` for a natural number.  The fuel argument only serves to
make the recursion structural; `natDigits` supplies enough fuel. -/
def natDigitsAux : Nat → Nat → List Char
  | 0, _ => []
  | fuel + 1, n =>
    if n < 10 then [digitChar n]
    else natDigitsAux fuel (n / 10) ++ [digitChar (n % 10)]

/-- Decimal digit list of `n`, modelling Python `str(n)`. -/
def natDigits (n : Nat) : List Char := natDigitsAux (n + 1) n

/-- Decimal string of `n`, modelling Python `str(n)` / f-string interpolation. -/
def natToString (n : Nat) : String := String.mk (natDigits n)

theorem natDigitsAux_stable : ∀ (f1 f2 n : Nat), n < f1 → n < f2 →
    natDigitsAux f1 n = natDigitsAux f2 n := by
  intro f1
  induction f1 with
  | zero => intro f2 n h1; omega
  | succ f1 ih =>
    intro f2 n h1 h2
    cases f2 with
    | zero => omega
    | succ f2 =>
      simp only [natDigitsAux]
      by_cases h : n < 10
      · simp [h]
      · have hdiv : n / 10 < n := Nat.div_lt_self (by omega) (by omega)
        simp only [h, if_false]
        rw [ih f2 (n / 10) (by omega) (by omega)]

/-- Recurrence equation for `natDigits`, mirroring repeated division by 10. -/
theorem natDigits_eq (n : Nat) :
    natDigits n = if n < 10 then [digitChar n]
      else natDigits (n / 10) ++ [digitChar (n % 10)] := by
  conv_lhs => rw [natDigits]
  by_cases h : n < 10
  · simp only [natDigitsAux, if_pos h]
  · simp only [natDigitsAux, if_neg h]
    rw [natDigitsAux_stable n (n / 10 + 1) (n / 10) (by omega) (Nat.lt_succ_self _)]
    rfl

theorem natDigits_ne_nil (n : Nat) : natDigits n ≠ [] := by
  rw [natDigits_eq]
  by_cases h : n < 10 <;> simp [h]

theorem digitChar_ne_underscore (n : Nat) : digitChar n ≠ '_' := by
  unfold digitChar
  split <;> decide

theorem digitChar_inj_bounded :
    ∀ a < 10, ∀ b < 10, digitChar a = digitChar b → a = b := by decide

theorem underscore_not_mem_natDigits (n : Nat) : '_' ∉ natDigits n := by
  induction n using Nat.strong_induction_on with
  | _ n ih =>
    rw [natDigits_eq]
    by_cases h : n < 10
    · simp only [h, if_true, List.mem_singleton]
      intro hc
      exact digitChar_ne_underscore n hc.symm
    · simp only [h, if_false, List.mem_append, List.mem_singleton]
      rintro (h1 | h2)
      · exact ih (n / 10) (Nat.div_lt_self (by omega) (by omega)) h1
      · exact digitChar_ne_underscore (n % 10) h2.symm

theorem natDigits_inj : ∀ n m : Nat, natDigits n = natDigits m → n = m := by
  intro n
  induction n using Nat.strong_induction_on with
  | _ n ih =>
    intro m h
    rw [natDigits_eq n, natDigits_eq m] at h
    by_cases hn : n < 10 <;> by_cases hm : m < 10
    · rw [if_pos hn, if_pos hm] at h
      exact digitChar_inj_bounded n hn m hm (List.cons.inj h).1
    · exfalso
      rw [if_pos hn, if_neg hm] at h
      have hlen := congrArg List.length h
      simp only [List.length_singleton, List.length_append] at hlen
      have h0 : (natDigits (m / 10)).length = 0 := by omega
      exact natDigits_ne_nil (m / 10) (List.length_eq_zero.mp h0)
    · exfalso
      rw [if_neg hn, if_pos hm] at h
      have hlen := congrArg List.length h
      simp only [List.length_singleton, List.length_append] at hlen
      have h0 : (natDigits (n / 10)).length = 0 := by omega
      exact natDigits_ne_nil (n / 10) (List.length_eq_zero.mp h0)
    · rw [if_neg hn, if_neg hm] at h
      have h' := congrArg List.reverse h
      simp only [List.reverse_append, List.reverse_singleton, List.singleton_append] at h'
      obtain ⟨h1, h2⟩ := List.cons.inj h'
      have hmod : n % 10 = m % 10 :=
        digitChar_inj_bounded (n % 10) (Nat.mod_lt n (by omega)) (m % 10)
          (Nat.mod_lt m (by omega)) h1
      have hdiv : n / 10 = m / 10 := by
        apply ih (n / 10) (Nat.div_lt_self (by omega) (by omega))
        exact List.reverse_injective h2
      omega

/-- Configured storage root, from the configuration section of the source
(`SCREENSHOT_FOLDER = r"Your Choice"`). -/
def SCREENSHOT_FOLDER : String := "Your Choice"

/-- Filename generated by `take_screenshot`:
`f"screenshot_{timestamp}_{len(screenshots) + 1}.png"` where `seq` stands
for `len(screenshots) + 1` at the time of the call. -/
def screenshotFilename (timestamp seq : Nat) : String :=
  "screenshot_" ++ natToString timestamp ++ "_" ++ natToString seq ++ ".png"

/-- Full path generated by `take_screenshot`, modelling
`os.path.join(SCREENSHOT_FOLDER, filename)` with a fixed separator. -/
def screenshotFilepath (timestamp seq : Nat) : String :=
  SCREENSHOT_FOLDER ++ "/" ++ screenshotFilename timestamp seq

/-- Splitting a character list at a separator character absent from both
prefixes is unambiguous. -/
theorem sep_append_inj (B D : List Char) : ∀ A C : List Char, '_' ∉ A → '_' ∉ C →
    A ++ '_' :: B = C ++ '_' :: D → A = C ∧ B = D := by
  intro A
  induction A with
  | nil =>
    intro C hA hC h
    cases C with
    | nil => simpa using h
    | cons c C =>
      exfalso
      rw [List.nil_append, List.cons_append] at h
      obtain ⟨h1, -⟩ := List.cons.inj h
      exact hC (h1 ▸ List.mem_cons_self '_' C)
  | cons a A ih =>
    intro C hA hC h
    cases C with
    | nil =>
      exfalso
      rw [List.nil_append, List.cons_append] at h
      obtain ⟨h1, -⟩ := List.cons.inj h
      exact hA (h1 ▸ List.mem_cons_self '_' A)
    | cons c C =>
      rw [List.cons_append, List.cons_append] at h
      obtain ⟨h1, h2⟩ := List.cons.inj h
      have hA' : '_' ∉ A := fun hx => hA (List.mem_cons_of_mem a hx)
      have hC' : '_' ∉ C := fun hx => hC (List.mem_cons_of_mem c hx)
      obtain ⟨hAC, hBD⟩ := ih C hA' hC' h2
      exact ⟨by rw [h1, hAC], hBD⟩

theorem string_data_append (s t : String) : (s ++ t).data = s.data ++ t.data := by
  cases s
  cases t
  rfl

theorem string_data_mk (l : List Char) : (String.mk l).data = l := rfl

/-- Character-level shape of a generated screenshot path. -/
theorem screenshotFilepath_data (t seq : Nat) :
    (screenshotFilepath t seq).data
      = "Your Choice/screenshot_".data
        ++ (natDigits t ++ '_' :: (natDigits seq ++ ".png".data)) := by
  simp only [screenshotFilepath, screenshotFilename, natToString, SCREENSHOT_FOLDER,
    string_data_append, string_data_mk, List.append_assoc]
  rfl

/-- Distinct timestamp/sequence pairs give distinct generated paths. -/
theorem screenshotFilepath_inj (t1 s1 t2 s2 : Nat)
    (h : screenshotFilepath t1 s1 = screenshotFilepath t2 s2) : t1 = t2 ∧ s1 = s2 := by
  have hd := congrArg String.data h
  rw [screenshotFilepath_data, screenshotFilepath_data] at hd
  have hd' := List.append_cancel_left hd
  obtain ⟨h1, h2⟩ := sep_append_inj (natDigits s1 ++ ".png".data)
    (natDigits s2 ++ ".png".data) (natDigits t1) (natDigits t2)
    (underscore_not_mem_natDigits t1) (underscore_not_mem_natDigits t2) hd'
  exact ⟨natDigits_inj t1 t2 h1, natDigits_inj s1 s2 (List.append_cancel_right h2)⟩

/-- Logical input signals of the main loop: `toggle` is a Caps Lock press,
`captureOne` is a Right Shift press (the debounce wait-for-release loops
collapse each sustained press to one signal). -/
inductive Signal where
  | toggle
  | captureOne
  deriving DecidableEq

/-- Outcome of one `requests.post` call in `send_text_to_telegram`:
either an HTTP response with some status code, or a raised exception
(network/transport failure). -/
inductive PostOutcome where
  | status (code : Nat)
  | raise
  deriving DecidableEq

/-- Result of parsing the Gemini response body on HTTP 200:
either the expected nested structure holding the analysis text, or a
malformed body whose indexing raises (KeyError/IndexError with message
`err`). -/
inductive GeminiBody where
  | wellFormed (text : String)
  | malformed (err : String)
  deriving DecidableEq

/-- Outcome of the single Gemini `requests.post` call. -/
inductive GeminiOutcome where
  | ok (body : GeminiBody)
  | httpError (code : Nat) (text : String)
  | raise (err : String)
  deriving DecidableEq

/-- Externally observable actions of the program: the file write performed
by `take_screenshot`, the Telegram `sendPhoto` call (with the 1-based
position and batch total appearing in its caption), the `time.sleep(1)`
rate-limit delay, the Gemini `generateContent` call, and the Telegram
`sendMessage` call. -/
inductive Event where
  | save (path : String)
  | sendImage (pos total : Nat) (path : String)
  | sleep
  | analyze (images : List String)
  | post (text : List Char)
  deriving DecidableEq

/-- The three global variables of the program. -/
structure AgentState where
  screenshots : List String
  screenshot_paths : List String
  is_collecting : Bool
  deriving DecidableEq

/-- Initial global state (`screenshots = []`, `screenshot_paths = []`,
`is_collecting = False`). -/
def initState : AgentState := ⟨[], [], false⟩

/-- Environment oracle for one loop iteration: the current coarse clock
value `int(time.time())`, the outcome of `ImageGrab.grab` plus save plus
base64 read (`none` models any exception in that block, `some` carries the
base64 data and the pixel dimensions), the per-position outcome of each
`sendPhoto` call, the Gemini outcome, the `time.strftime` text used in the
summary, and the per-chunk outcome of each `sendMessage` call. -/
structure Env where
  now : Nat
  grab : Option (String × Nat × Nat)
  delivery : Nat → Bool
  gemini : GeminiOutcome
  timeStr : String
  posts : Nat → PostOutcome

/-- Model of `take_screenshot()`.  On success it returns the base64
string, the image size and the saved file path (whose name is built from
the coarse timestamp and `len(screenshots) + 1`), together with the file
write it performed; any exception in the body yields `(None, None, None)`
and no recorded write. -/
def take_screenshot (now : Nat) (grab : Option (String × Nat × Nat))
    (screenshots : List String) :
    Option (String × (Nat × Nat) × String) × List Event :=
  match grab with
  | none => (none, [])
  | some (b64, w, h) =>
    let filepath := screenshotFilepath now (screenshots.length + 1)
    (some (b64, (w, h), filepath), [Event.save filepath])

/-- Loop body of `send_images_to_telegram`: `for i, image_path in
enumerate(image_paths, 1)`, sending each image with caption
`f"Screenshot {i}/{len(image_paths)} - ..."`; a 1-second sleep follows a
successful send only. -/
def sendImagesLoop (outs : Nat → Bool) (total : Nat) :
    Nat → List String → List Event
  | _, [] => []
  | i, p :: rest =>
    if outs i then
      Event.sendImage i total p :: Event.sleep :: sendImagesLoop outs total (i + 1) rest
    else
      Event.sendImage i total p :: sendImagesLoop outs total (i + 1) rest

/-- Model of `send_images_to_telegram(image_paths)`. -/
def send_images_to_telegram (outs : Nat → Bool) (image_paths : List String) :
    List Event :=
  sendImagesLoop outs image_paths.length 1 image_paths

/-- Chunk list built by `send_text_to_telegram`:
`[message[i:i+max_length] for i in range(0, len(message), max_length)]`. -/
def chunksOf (size : Nat) (l : List Char) : List (List Char) :=
  (List.range ((l.length + size - 1) / size)).map fun i => (l.drop (size * i)).take size

/-- Header prepended to the `i`-th chunk (1-based): `f"Part {i}/{N}:\n"`. -/
def partHeader (i total : Nat) : List Char :=
  ("Part " ++ natToString i ++ "/" ++ natToString total ++ ":\n").data

/-- Chunk-sending loop of `send_text_to_telegram`.  Each chunk is posted
with its part header; after the post the loop always sleeps one second
(the status check only logs).  A raised transport error propagates out of
the loop to the function-level handler, so the remaining chunks are not
attempted. -/
def sendChunksLoop (outs : Nat → PostOutcome) (total : Nat) :
    Nat → List (List Char) → List Event
  | _, [] => []
  | i, c :: rest =>
    match outs i with
    | PostOutcome.raise => [Event.post (partHeader (i + 1) total ++ c)]
    | PostOutcome.status _ =>
      Event.post (partHeader (i + 1) total ++ c) :: Event.sleep ::
        sendChunksLoop outs total (i + 1) rest

/-- Model of `send_text_to_telegram(message)`.  Messages longer than 4000
characters are split into chunks and sent part by part; shorter messages
are posted unchanged in a single call.  The surrounding try/except means
the function itself never raises, whatever the post outcomes. -/
def send_text_to_telegram (outs : Nat → PostOutcome) (message : List Char) :
    List Event :=
  if 4000 < message.length then
    let chunks := chunksOf 4000 message
    sendChunksLoop outs chunks.length 0 chunks
  else
    [Event.post message]

/-- Body of `analyze_with_google_gemini` up to (but excluding) the
function-level except handler: HTTP 200 with a well-formed body yields the
analysis text; HTTP 200 with a malformed body raises while indexing into
the parsed JSON; a non-200 status returns the error text without raising;
a transport failure raises. -/
def gemini_attempt (o : GeminiOutcome) : Except String String :=
  match o with
  | GeminiOutcome.ok (GeminiBody.wellFormed t) => Except.ok t
  | GeminiOutcome.ok (GeminiBody.malformed e) => Except.error e
  | GeminiOutcome.httpError c t =>
    Except.ok ("❌ Gemini API Error: " ++ natToString c ++ " - " ++ t)
  | GeminiOutcome.raise e => Except.error e

/-- Model of `analyze_with_google_gemini(images_base64)`: the body wrapped
in the except handler that turns any raised exception into the error text
`f"❌ Gemini analysis error: {str(e)}"`. -/
def analyze_with_google_gemini (images_base64 : List String) (o : GeminiOutcome) :
    String :=
  match gemini_attempt o with
  | Except.ok s => s
  | Except.error e => "❌ Gemini analysis error: " ++ e

/-- Fifty equal signs, `"=" * 50`. -/
def eqLine : String := String.mk (List.replicate 50 '=')

/-- Summary text assembled by `process_screenshots`. -/
def summaryText (count : Nat) (timeStr analysis : String) : String :=
  "🔍 AI Analysis Results:\n"
    ++ "📊 Screenshots analyzed: " ++ natToString count ++ "\n"
    ++ "🕐 Analysis time: " ++ timeStr ++ "\n"
    ++ "📁 Saved to: " ++ SCREENSHOT_FOLDER ++ "\n\n"
    ++ eqLine ++ "\n"
    ++ "📋 DETAILED ANALYSIS:\n"
    ++ eqLine ++ "\n"
    ++ analysis

/-- Model of `process_screenshots()`.  With an empty `screenshots` list it
returns immediately (log only).  Otherwise it delivers every image, makes
the single Gemini call, sends the summary text, and clears both buffers
unconditionally. -/
def process_screenshots (e : Env) (s : AgentState) : AgentState × List Event :=
  if s.screenshots = [] then (s, [])
  else
    let tr1 := send_images_to_telegram e.delivery s.screenshot_paths
    let analysis := analyze_with_google_gemini s.screenshots e.gemini
    let summary := summaryText s.screenshots.length e.timeStr analysis
    let tr2 := send_text_to_telegram e.posts summary.data
    (⟨[], [], s.is_collecting⟩, tr1 ++ Event.analyze s.screenshots :: tr2)

/-- One iteration of the main loop acting on one debounced signal.
On `toggle` while idle: set the flag, clear both buffers, take the first
screenshot immediately and append it on success.  On `toggle` while
active: run `process_screenshots` and reset the flag.  On `captureOne`
while active: take a screenshot and append it on success.  `captureOne`
while idle is ignored. -/
def mainStep (e : Env) (s : AgentState) : Signal → AgentState × List Event
  | Signal.toggle =>
    if s.is_collecting then
      let r := process_screenshots e s
      (⟨r.1.screenshots, r.1.screenshot_paths, false⟩, r.2)
    else
      let r := take_screenshot e.now e.grab []
      match r.1 with
      | some (b64, _, filepath) => (⟨[b64], [filepath], true⟩, r.2)
      | none => (⟨[], [], true⟩, r.2)
  | Signal.captureOne =>
    if s.is_collecting then
      let r := take_screenshot e.now e.grab s.screenshots
      match r.1 with
      | some (b64, _, filepath) =>
        (⟨s.screenshots ++ [b64], s.screenshot_paths ++ [filepath], true⟩, r.2)
      | none => (s, r.2)
    else (s, [])

/-- Run of the main loop over a list of debounced signals, each with its
environment oracle, collecting the event trace. -/
def runSignals (s : AgentState) : List (Env × Signal) → AgentState × List Event
  | [] => (s, [])
  | (e, sig) :: rest =>
    let r := mainStep e s sig
    let r' := runSignals r.1 rest
    (r'.1, r.2 ++ r'.2)

/-- Recognizer for delivery events. -/
def isSendImage : Event → Bool
  | Event.sendImage _ _ _ => true
  | _ => false

/-- Recognizer for the Gemini analysis event. -/
def isAnalyze : Event → Bool
  | Event.analyze _ => true
  | _ => false

/-- Recognizer for text-message posts. -/
def isPost : Event → Bool
  | Event.post _ => true
  | _ => false

/-- Path written by a save event, if any. -/
def savePath : Event → Option String
  | Event.save p => some p
  | _ => none

theorem chunksOf_length (size : Nat) (l : List Char) :
    (chunksOf size l).length = (l.length + size - 1) / size := by
  simp [chunksOf]

theorem chunksOf_nil (size : Nat) : chunksOf size [] = [] := by
  unfold chunksOf
  have h : (([] : List Char).length + size - 1) / size = 0 := by
    simp only [List.length_nil, Nat.zero_add]
    cases size with
    | zero => rfl
    | succ s => exact Nat.div_eq_of_lt (by omega)
  rw [h]
  rfl

/-- Unfolding equation for the chunk list of a non-empty message. -/
theorem chunksOf_cons (size : Nat) (hs : 0 < size) (l : List Char) (hl : l ≠ []) :
    chunksOf size l = l.take size :: chunksOf size (l.drop size) := by
  have hL : 1 ≤ l.length := List.length_pos.mpr hl
  have hk : (l.length + size - 1) / size = (l.length - 1) / size + 1 := by
    have h1 : l.length + size - 1 = (l.length - 1) + size := by omega
    rw [h1, Nat.add_div_right _ hs]
  have hk' : ((l.drop size).length + size - 1) / size = (l.length - 1) / size := by
    rw [List.length_drop]
    by_cases hls : l.length ≤ size
    · have h1 : l.length - size = 0 := by omega
      rw [h1]
      rw [Nat.div_eq_of_lt (by omega), Nat.div_eq_of_lt (by omega)]
    · have h1 : l.length - size + size - 1 = (l.length - 1 - size) + size := by omega
      rw [h1, Nat.add_div_right _ hs]
      have h2 : l.length - 1 = (l.length - 1 - size) + size := by omega
      conv_rhs => rw [h2]
      rw [Nat.add_div_right _ hs]
  have hrhs : chunksOf size (l.drop size)
      = (List.range ((l.length - 1) / size)).map
          fun i => ((l.drop size).drop (size * i)).take size := by
    unfold chunksOf
    rw [hk']
  rw [hrhs]
  unfold chunksOf
  rw [hk, List.range_succ_eq_map, List.map_cons, List.map_map]
  refine List.cons_eq_cons.mpr ⟨by simp, ?_⟩
  apply List.map_congr_left
  intro i hi
  simp only [Function.comp_apply, List.drop_drop]
  have h : size * (i + 1) = size + size * i := by ring
  rw [h]

theorem chunksOf_flatten_aux (size : Nat) (hs : 0 < size) :
    ∀ (n : Nat) (l : List Char), l.length ≤ n → (chunksOf size l).flatten = l := by
  intro n
  induction n with
  | zero =>
    intro l h
    have hl : l = [] := by cases l <;> simp_all
    subst hl
    rw [chunksOf_nil]
    rfl
  | succ n ih =>
    intro l h
    by_cases hl : l = []
    · subst hl
      rw [chunksOf_nil]
      rfl
    · have hL : 1 ≤ l.length := List.length_pos.mpr hl
      rw [chunksOf_cons size hs l hl, List.flatten_cons]
      rw [ih (l.drop size) (by rw [List.length_drop]; omega)]
      exact List.take_append_drop size l

/-- Round trip: concatenating the chunks restores the original message. -/
theorem chunksOf_flatten (size : Nat) (hs : 0 < size) (l : List Char) :
    (chunksOf size l).flatten = l :=
  chunksOf_flatten_aux size hs l.length l (le_refl _)

theorem mem_enumFrom_le {α : Type} : ∀ (l : List α) (k : Nat) (x : Nat × α),
    x ∈ l.enumFrom k → k ≤ x.1 := by
  intro l
  induction l with
  | nil => intro k x hx; simp [List.enumFrom] at hx
  | cons a l ih =>
    intro k x hx
    rw [show (a :: l).enumFrom k = (k, a) :: l.enumFrom (k + 1) from rfl] at hx
    rcases List.mem_cons.mp hx with h | h
    · rw [h]
    · have := ih (k + 1) x h
      omega

theorem enumFrom_pairwise_lt {α : Type} : ∀ (l : List α) (k : Nat),
    (l.enumFrom k).Pairwise fun a b => a.1 < b.1 := by
  intro l
  induction l with
  | nil => intro k; simp [List.enumFrom]
  | cons a l ih =>
    intro k
    rw [show (a :: l).enumFrom k = (k, a) :: l.enumFrom (k + 1) from rfl]
    refine List.Pairwise.cons ?_ (ih (k + 1))
    intro x hx
    have := mem_enumFrom_le l (k + 1) x hx
    omega

/-- The delivery loop attempts every path in order: the `sendImage` events
of its trace are exactly the enumerated paths with their 1-based positions,
whatever the per-call outcomes. -/
theorem sendImagesLoop_filter (outs : Nat → Bool) (total : Nat) :
    ∀ (ps : List String) (i : Nat),
      (sendImagesLoop outs total i ps).filter isSendImage
        = (ps.enumFrom i).map fun x => Event.sendImage x.1 total x.2 := by
  intro ps
  induction ps with
  | nil => intro i; simp [sendImagesLoop, List.enumFrom]
  | cons p rest ih =>
    intro i
    rw [show (p :: rest).enumFrom i = (i, p) :: rest.enumFrom (i + 1) from rfl]
    by_cases h : outs i = true
    · simp [sendImagesLoop, h, isSendImage, ih (i + 1)]
    · simp only [Bool.not_eq_true] at h
      simp [sendImagesLoop, h, isSendImage, ih (i + 1)]

theorem sendImagesLoop_events (outs : Nat → Bool) (total : Nat) :
    ∀ (ps : List String) (i : Nat) (ev : Event), ev ∈ sendImagesLoop outs total i ps →
      isSendImage ev = true ∨ ev = Event.sleep := by
  intro ps
  induction ps with
  | nil => intro i ev hev; simp [sendImagesLoop] at hev
  | cons p rest ih =>
    intro i ev hev
    by_cases h : outs i = true <;>
      simp only [sendImagesLoop, h, if_true, if_false, Bool.false_eq_true,
        List.mem_cons] at hev
    · rcases hev with h1 | h1 | h1
      · left; rw [h1]; rfl
      · right; exact h1
      · exact ih (i + 1) ev h1
    · rcases hev with h1 | h1
      · left; rw [h1]; rfl
      · exact ih (i + 1) ev h1

/-- With no raised transport error, the chunk loop posts every chunk in
order with its part header, whatever the HTTP status codes. -/
theorem sendChunksLoop_filter (codes : Nat → Nat) (total : Nat) :
    ∀ (cs : List (List Char)) (i : Nat),
      (sendChunksLoop (fun j => PostOutcome.status (codes j)) total i cs).filter isPost
        = (cs.enumFrom i).map fun x => Event.post (partHeader (x.1 + 1) total ++ x.2) := by
  intro cs
  induction cs with
  | nil => intro i; simp [sendChunksLoop, List.enumFrom]
  | cons c rest ih =>
    intro i
    rw [show (c :: rest).enumFrom i = (i, c) :: rest.enumFrom (i + 1) from rfl]
    simp [sendChunksLoop, isPost, ih (i + 1)]

theorem sendChunksLoop_events (outs : Nat → PostOutcome) (total : Nat) :
    ∀ (cs : List (List Char)) (i : Nat) (ev : Event),
      ev ∈ sendChunksLoop outs total i cs → isPost ev = true ∨ ev = Event.sleep := by
  intro cs
  induction cs with
  | nil => intro i ev hev; simp [sendChunksLoop] at hev
  | cons c rest ih =>
    intro i ev hev
    simp only [sendChunksLoop] at hev
    cases houts : outs i with
    | raise =>
      rw [houts] at hev
      simp only [List.mem_singleton] at hev
      left; rw [hev]; rfl
    | status code =>
      rw [houts] at hev
      simp only [List.mem_cons] at hev
      rcases hev with h1 | h1 | h1
      · left; rw [h1]; rfl
      · right; exact h1
      · exact ih (i + 1) ev h1

theorem send_text_events (outs : Nat → PostOutcome) (message : List Char) (ev : Event)
    (hev : ev ∈ send_text_to_telegram outs message) :
    isPost ev = true ∨ ev = Event.sleep := by
  unfold send_text_to_telegram at hev
  by_cases h : 4000 < message.length
  · rw [if_pos h] at hev
    exact sendChunksLoop_events outs _ _ 0 ev hev
  · rw [if_neg h] at hev
    simp only [List.mem_singleton] at hev
    left; rw [hev]; rfl

/-- Payload of one successful capture: the clock value at the call and the
data returned by the grab/save/read block. -/
structure Grab where
  time : Nat
  b64 : String
  w : Nat
  h : Nat

/-- Environment for a loop iteration whose capture succeeds with payload
`g` (the delivery/analysis/post oracles are irrelevant to capture steps). -/
def capEnv (g : Grab) : Env :=
  ⟨g.time, some (g.b64, g.w, g.h), fun _ => true, GeminiOutcome.raise "",
    "", fun _ => PostOutcome.status 200⟩

/-- Effect of a block of successful `captureOne` steps from an active
state: both buffers are extended together, one entry per capture, with
sequence numbers continuing from the current buffer length. -/
theorem mainStep_capEnv_captureOne (g : Grab) (bs ps : List String) :
    mainStep (capEnv g) ⟨bs, ps, true⟩ Signal.captureOne
      = (⟨bs ++ [g.b64], ps ++ [screenshotFilepath g.time (bs.length + 1)], true⟩,
        [Event.save (screenshotFilepath g.time (bs.length + 1))]) := rfl

theorem runSignals_captureOnes : ∀ (gs : List Grab) (bs ps : List String),
    runSignals ⟨bs, ps, true⟩ (gs.map fun g => (capEnv g, Signal.captureOne))
      = (⟨bs ++ gs.map Grab.b64,
          ps ++ (gs.enumFrom (bs.length + 1)).map
            (fun x => screenshotFilepath x.2.time x.1),
          true⟩,
        (gs.enumFrom (bs.length + 1)).map
          (fun x => Event.save (screenshotFilepath x.2.time x.1))) := by
  intro gs
  induction gs with
  | nil => intro bs ps; simp [runSignals, List.enumFrom]
  | cons g gs ih =>
    intro bs ps
    rw [List.map_cons]
    rw [show (g :: gs).enumFrom (bs.length + 1)
        = (bs.length + 1, g) :: gs.enumFrom (bs.length + 2) from rfl]
    simp only [runSignals, mainStep_capEnv_captureOne]
    rw [ih (bs ++ [g.b64]) (ps ++ [screenshotFilepath g.time (bs.length + 1)])]
    simp [List.append_assoc, List.length_append]

theorem mainStep_capEnv_toggleOn (g : Grab) (s : AgentState)
    (hs : s.is_collecting = false) :
    mainStep (capEnv g) s Signal.toggle
      = (⟨[g.b64], [screenshotFilepath g.time 1], true⟩,
        [Event.save (screenshotFilepath g.time 1)]) := by
  unfold mainStep
  rw [hs]
  rfl

/-- State and trace of one whole collection session in which the opening
capture and every later capture succeed: the buffers hold exactly the
captured data, positions numbered from 1. -/
theorem session_state (g0 : Grab) (gs : List Grab) :
    runSignals initState
        ((capEnv g0, Signal.toggle) :: gs.map fun g => (capEnv g, Signal.captureOne))
      = (⟨g0.b64 :: gs.map Grab.b64,
          ((g0 :: gs).enumFrom 1).map (fun x => screenshotFilepath x.2.time x.1),
          true⟩,
        ((g0 :: gs).enumFrom 1).map
          (fun x => Event.save (screenshotFilepath x.2.time x.1))) := by
  rw [show (g0 :: gs).enumFrom 1 = (1, g0) :: gs.enumFrom 2 from rfl]
  simp only [runSignals, mainStep_capEnv_toggleOn g0 initState rfl]
  rw [runSignals_captureOnes gs [g0.b64] [screenshotFilepath g0.time 1]]
  simp

/-- State invariant of the main loop: the two buffers have equal length,
and both are empty whenever the agent is idle. -/
def stateInv (s : AgentState) : Prop :=
  s.screenshots.length = s.screenshot_paths.length
  ∧ (s.is_collecting = false → s.screenshots = [] ∧ s.screenshot_paths = [])

theorem mainStep_stateInv (e : Env) (s : AgentState) (sig : Signal)
    (h : stateInv s) : stateInv (mainStep e s sig).1 := by
  obtain ⟨hlen, hidle⟩ := h
  cases sig with
  | toggle =>
    unfold mainStep
    cases hcol : s.is_collecting with
    | true =>
      simp only [if_true]
      unfold process_screenshots
      by_cases he : s.screenshots = []
      · rw [if_pos he]
        have hp : s.screenshot_paths = [] := by
          rw [he] at hlen
          exact List.length_eq_zero.mp hlen.symm
        exact ⟨by rw [he, hp], fun _ => ⟨he, hp⟩⟩
      · rw [if_neg he]
        exact ⟨rfl, fun _ => ⟨rfl, rfl⟩⟩
    | false =>
      simp only [Bool.false_eq_true, if_false]
      unfold take_screenshot
      cases e.grab with
      | none => exact ⟨rfl, fun _ => ⟨rfl, rfl⟩⟩
      | some v =>
        obtain ⟨b, w, hh⟩ := v
        exact ⟨rfl, by intro hc; exact absurd hc (by simp)⟩
  | captureOne =>
    unfold mainStep
    cases hcol : s.is_collecting with
    | true =>
      simp only [if_true]
      unfold take_screenshot
      cases e.grab with
      | none => exact ⟨hlen, fun hc => by rw [hcol] at hc; exact absurd hc (by simp)⟩
      | some v =>
        obtain ⟨b, w, hh⟩ := v
        refine ⟨by simp [hlen], ?_⟩
        intro hc
        exact absurd hc (by simp)
    | false =>
      simp only [Bool.false_eq_true, if_false]
      exact ⟨hlen, fun _ => hidle hcol⟩

theorem runSignals_stateInv : ∀ (evs : List (Env × Signal)) (s : AgentState),
    stateInv s → stateInv (runSignals s evs).1 := by
  intro evs
  induction evs with
  | nil => intro s h; exact h
  | cons x rest ih =>
    intro s h
    obtain ⟨e, sig⟩ := x
    exact ih (mainStep e s sig).1 (mainStep_stateInv e s sig h)

theorem mainStep_finalize_cons (ef : Env) (b : String) (bs ps : List String) :
    (mainStep ef ⟨b :: bs, ps, true⟩ Signal.toggle).1 = ⟨[], [], false⟩ := by
  simp [mainStep, process_screenshots]

/-- Claim C1: for a session of toggle-on, then some captureOne signals
while active, then toggle-off, with every capture succeeding, the batch
size observed when finalize begins is 1 plus the number of captureOne
signals, and both the batch and the path list are empty immediately after
finalize returns, for every environment `ef` of the finalizing step (so
for all delivery and analysis outcomes). -/
theorem c1_session_batch_and_clear (g0 : Grab) (gs : List Grab) (ef : Env) :
    (runSignals initState
        ((capEnv g0, Signal.toggle)
          :: gs.map fun g => (capEnv g, Signal.captureOne))).1.screenshots.length
      = 1 + gs.length
    ∧ (mainStep ef (runSignals initState
        ((capEnv g0, Signal.toggle)
          :: gs.map fun g => (capEnv g, Signal.captureOne))).1 Signal.toggle).1.screenshots = []
    ∧ (mainStep ef (runSignals initState
        ((capEnv g0, Signal.toggle)
          :: gs.map fun g => (capEnv g, Signal.captureOne))).1 Signal.toggle).1.screenshot_paths = []
    ∧ (mainStep ef (runSignals initState
        ((capEnv g0, Signal.toggle)
          :: gs.map fun g => (capEnv g, Signal.captureOne))).1 Signal.toggle).1.is_collecting = false := by
  rw [session_state]
  refine ⟨by simp [Nat.add_comm], ?_, ?_, ?_⟩ <;> simp [mainStep_finalize_cons]

/-- Claim C2: at finalize with a non-empty batch, the per-image delivery
calls appear in the trace in batch order, each tagged with its 1-based
position and the batch total; the single analysis call (receiving all the
base64 images) occurs only after every delivery attempt, and no delivery
or further analysis occurs after it, whatever the delivery outcomes. -/
theorem c2_delivery_order_then_analysis (e : Env) (b0 p0 : String)
    (bs ps : List String) :
    ∃ tr1 tr2 : List Event,
      (process_screenshots e ⟨b0 :: bs, p0 :: ps, true⟩).2
        = tr1 ++ Event.analyze (b0 :: bs) :: tr2
      ∧ tr1.filter isSendImage
          = ((p0 :: ps).enumFrom 1).map
              (fun x => Event.sendImage x.1 (p0 :: ps).length x.2)
      ∧ (∀ ev ∈ tr1, isAnalyze ev = false)
      ∧ (∀ ev ∈ tr2, isSendImage ev = false ∧ isAnalyze ev = false) := by
  refine ⟨send_images_to_telegram e.delivery (p0 :: ps),
    send_text_to_telegram e.posts (summaryText (b0 :: bs).length e.timeStr
      (analyze_with_google_gemini (b0 :: bs) e.gemini)).data, ?_, ?_, ?_, ?_⟩
  · simp [process_screenshots]
  · exact sendImagesLoop_filter e.delivery (p0 :: ps).length (p0 :: ps) 1
  · intro ev hev
    rcases sendImagesLoop_events e.delivery (p0 :: ps).length (p0 :: ps) 1 ev hev with hh | hh
    · cases ev <;> simp_all [isSendImage, isAnalyze]
    · rw [hh]; rfl
  · intro ev hev
    rcases send_text_events e.posts _ ev hev with hh | hh
    · cases ev <;> simp_all [isPost, isSendImage, isAnalyze]
    · rw [hh]; exact ⟨rfl, rfl⟩

/-- Claim C3: a message longer than 4000 characters is split into exactly
ceil(L / 4000) ordered chunks; the posted parts are exactly the chunks in
order, each preceded by its `Part i/N:` header; and the concatenation of
the chunks (headers removed) is the original message, for arbitrary HTTP
status codes of the per-part posts. -/
theorem c3_chunking_roundtrip (codes : Nat → Nat) (msg : List Char)
    (h : 4000 < msg.length) :
    (chunksOf 4000 msg).length = (msg.length + 3999) / 4000
    ∧ (send_text_to_telegram (fun j => PostOutcome.status (codes j)) msg).filter isPost
        = ((chunksOf 4000 msg).enum).map
            (fun x => Event.post (partHeader (x.1 + 1) (chunksOf 4000 msg).length ++ x.2))
    ∧ (chunksOf 4000 msg).flatten = msg := by
  refine ⟨?_, ?_, chunksOf_flatten 4000 (by omega) msg⟩
  · rw [chunksOf_length]
    congr 1
  · unfold send_text_to_telegram
    rw [if_pos h]
    exact sendChunksLoop_filter codes (chunksOf 4000 msg).length (chunksOf 4000 msg) 0

/-- Witness for C3 at the concrete message of 4001 letters. -/
theorem c3_chunking_roundtrip_witness :
    4000 < (List.replicate 4001 'a').length
    ∧ ((chunksOf 4000 (List.replicate 4001 'a')).length
          = ((List.replicate 4001 'a').length + 3999) / 4000
      ∧ (send_text_to_telegram (fun _ => PostOutcome.status 200)
            (List.replicate 4001 'a')).filter isPost
          = ((chunksOf 4000 (List.replicate 4001 'a')).enum).map
              (fun x => Event.post (partHeader (x.1 + 1)
                (chunksOf 4000 (List.replicate 4001 'a')).length ++ x.2))
      ∧ (chunksOf 4000 (List.replicate 4001 'a')).flatten = List.replicate 4001 'a') :=
  ⟨by rw [List.length_replicate]; norm_num,
    c3_chunking_roundtrip (fun _ => 200) (List.replicate 4001 'a')
      (by rw [List.length_replicate]; norm_num)⟩

/-- Counterexample to claim C4 as stated: a message of 4001 characters has
two chunks, but when the post of the first chunk raises a transport error
the function-level handler catches it and the second chunk is never
attempted — the whole trace is the single first post. -/
theorem c4_counterexample :
    (chunksOf 4000 (List.replicate 4001 'a')).length = 2
    ∧ send_text_to_telegram (fun _ => PostOutcome.raise) (List.replicate 4001 'a')
        = [Event.post (partHeader 1 2 ++ List.replicate 4000 'a')] := by
  have hne : (List.replicate 4001 'a') ≠ ([] : List Char) := by
    intro hc
    have hlen := congrArg List.length hc
    rw [List.length_replicate] at hlen
    simp at hlen
  have htake : (List.replicate 4001 'a').take 4000 = List.replicate 4000 'a' := by
    rw [List.take_replicate]
    norm_num
  have hdrop : (List.replicate 4001 'a').drop 4000 = List.replicate 1 'a' := by
    rw [List.drop_replicate]
  have hch2 : chunksOf 4000 (List.replicate 1 'a') = [List.replicate 1 'a'] := by
    rw [chunksOf_cons 4000 (by omega) (List.replicate 1 'a') (by simp)]
    rw [List.take_replicate, List.drop_replicate]
    norm_num
    exact chunksOf_nil 4000
  have hch : chunksOf 4000 (List.replicate 4001 'a')
      = [List.replicate 4000 'a', List.replicate 1 'a'] := by
    rw [chunksOf_cons 4000 (by omega) _ hne, htake, hdrop, hch2]
  refine ⟨by rw [hch]; rfl, ?_⟩
  unfold send_text_to_telegram
  rw [if_pos (by rw [List.length_replicate]; norm_num)]
  rw [hch]
  rfl

/-- Claim C4 as amended: a non-raising failure (any HTTP status, including
non-200) while sending one chunk does not prevent the remaining chunks —
every chunk is still attempted and nothing is propagated to the caller; a
raised transport error, by contrast, aborts the remaining chunks but is
caught by the function-level handler (the function still returns
normally, as `send_text_to_telegram` is total). -/
theorem c4_amended_all_chunks_attempted (codes : Nat → Nat) (msg : List Char)
    (h : 4000 < msg.length) :
    ((send_text_to_telegram (fun j => PostOutcome.status (codes j)) msg).filter isPost).length
      = (chunksOf 4000 msg).length := by
  unfold send_text_to_telegram
  rw [if_pos h]
  rw [sendChunksLoop_filter codes]
  simp

/-- Witness for the amended C4 at a concrete message whose two chunk posts
both fail with HTTP 500. -/
theorem c4_amended_witness :
    4000 < (List.replicate 4001 'a').length
    ∧ ((send_text_to_telegram (fun _ => PostOutcome.status 500)
          (List.replicate 4001 'a')).filter isPost).length
        = (chunksOf 4000 (List.replicate 4001 'a')).length :=
  ⟨by rw [List.length_replicate]; norm_num,
    c4_amended_all_chunks_attempted (fun _ => 500) (List.replicate 4001 'a')
      (by rw [List.length_replicate]; norm_num)⟩

/-- Claim C5: finalize on an empty batch performs no delivery call, no
analysis call and no text send (empty trace), and the toggle that invoked
it still returns the collection state to idle with both buffers empty. -/
theorem c5_empty_batch_finalize (e : Env) :
    process_screenshots e ⟨[], [], true⟩ = (⟨[], [], true⟩, [])
    ∧ mainStep e ⟨[], [], true⟩ Signal.toggle = (⟨[], [], false⟩, []) :=
  ⟨rfl, rfl⟩

/-- Environment used by the C6 counterexample: clock stuck at second 100,
captures succeeding, deliveries failing fast, Gemini failing fast. -/
def e100 : Env :=
  ⟨100, some ("imgB64", 1920, 1080), fun _ => false,
    GeminiOutcome.httpError 500 "boom", "2025", fun _ => PostOutcome.status 200⟩

set_option maxRecDepth 8000 in
/-- Counterexample to claim C6 as stated: two sessions within the same
coarse-timestamp second (toggle-on, toggle-off, toggle-on, all at
`int(time.time()) = 100`) perform two distinct capture operations whose
file writes use the identical path `screenshot_100_1.png`, because the
sequence number restarts at 1 when the batch is cleared. -/
theorem c6_counterexample :
    (runSignals initState
        [(e100, Signal.toggle), (e100, Signal.toggle), (e100, Signal.toggle)]).2.filterMap savePath
      = [screenshotFilepath 100 1, screenshotFilepath 100 1]
    ∧ ¬ ([screenshotFilepath 100 1,
          screenshotFilepath 100 1].Pairwise fun a b => a ≠ b) := by
  constructor
  · decide
  · decide

/-- Claim C6 as amended: within a single session in which every capture
succeeds, the generated storage paths are pairwise distinct (the embedded
sequence number strictly increases, whatever the timestamps); uniqueness
can fail only once the sequence number resets — across sessions, or after
a failed capture — as the counterexample shows. -/
theorem c6_amended_distinct_within_session (g0 : Grab) (gs : List Grab) :
    ((runSignals initState
        ((capEnv g0, Signal.toggle)
          :: gs.map fun g => (capEnv g, Signal.captureOne))).1.screenshot_paths).Pairwise
      (fun a b => a ≠ b) := by
  rw [session_state]
  refine List.pairwise_map.mpr ?_
  refine (enumFrom_pairwise_lt (g0 :: gs) 1).imp ?_
  intro x y hxy hfeq
  have hseq := (screenshotFilepath_inj x.2.time x.1 y.2.time y.1 hfeq).2
  omega

/-- Claim C7: when the capture block raises, `take_screenshot` returns the
distinguishable failure value (modelling `(None, None, None)`) and records
no file write; a failed `captureOne` leaves the whole state unchanged; a
failed toggle-on capture leaves both (freshly cleared) buffers empty; and
the collection flag after a toggle never depends on the capture outcome. -/
theorem c7_capture_failure_noop (e : Env) (h : e.grab = none) (s : AgentState) :
    take_screenshot e.now e.grab s.screenshots = (none, [])
    ∧ (s.is_collecting = true → mainStep e s Signal.captureOne = (s, []))
    ∧ (s.is_collecting = false → mainStep e s Signal.toggle = (⟨[], [], true⟩, []))
    ∧ (∀ e' : Env, (mainStep e' s Signal.toggle).1.is_collecting
        = (mainStep e s Signal.toggle).1.is_collecting) := by
  refine ⟨?_, ?_, ?_, ?_⟩
  · rw [show take_screenshot e.now e.grab s.screenshots
      = take_screenshot e.now none s.screenshots from by rw [h]]
    rfl
  · intro hc
    unfold mainStep
    rw [hc, h]
    rfl
  · intro hc
    unfold mainStep
    rw [hc, h]
    rfl
  · have key : ∀ e'' : Env, s.is_collecting = false →
        (mainStep e'' s Signal.toggle).1.is_collecting = true := by
      intro e'' hc
      unfold mainStep
      rw [hc]
      unfold take_screenshot
      cases e''.grab with
      | none => rfl
      | some v =>
        obtain ⟨b, w, hh⟩ := v
        rfl
    have key2 : ∀ e'' : Env, s.is_collecting = true →
        (mainStep e'' s Signal.toggle).1.is_collecting = false := by
      intro e'' hc
      unfold mainStep
      rw [hc]
      rfl
    intro e'
    cases hcol : s.is_collecting with
    | true => rw [key2 e' hcol, key2 e hcol]
    | false => rw [key e' hcol, key e hcol]

/-- Environment whose capture fails, used by the C7 witness. -/
def envNoGrab : Env :=
  ⟨0, none, fun _ => true, GeminiOutcome.raise "", "", fun _ => PostOutcome.raise⟩

/-- Witness for C7 at a concrete failing environment and the initial
state. -/
theorem c7_capture_failure_noop_witness :
    envNoGrab.grab = none
    ∧ (take_screenshot envNoGrab.now envNoGrab.grab initState.screenshots = (none, [])
      ∧ (initState.is_collecting = true →
          mainStep envNoGrab initState Signal.captureOne = (initState, []))
      ∧ (initState.is_collecting = false →
          mainStep envNoGrab initState Signal.toggle = (⟨[], [], true⟩, []))
      ∧ (∀ e' : Env, (mainStep e' initState Signal.toggle).1.is_collecting
          = (mainStep envNoGrab initState Signal.toggle).1.is_collecting)) :=
  ⟨rfl, c7_capture_failure_noop envNoGrab rfl initState⟩

/-- Claim C8: `analyze_with_google_gemini` always returns a plain string
and never lets an exception reach its caller — the analysis text when the
HTTP call returns status 200 with a well-formed body, and a human-readable
error string in every failure case (non-200 status, malformed body whose
indexing raises, or raised transport error). -/
theorem c8_analysis_total (images_base64 : List String) (o : GeminiOutcome) :
    analyze_with_google_gemini images_base64 o
      = match o with
        | GeminiOutcome.ok (GeminiBody.wellFormed t) => t
        | GeminiOutcome.ok (GeminiBody.malformed e) => "❌ Gemini analysis error: " ++ e
        | GeminiOutcome.httpError c t =>
          "❌ Gemini API Error: " ++ natToString c ++ " - " ++ t
        | GeminiOutcome.raise e => "❌ Gemini analysis error: " ++ e := by
  cases o with
  | ok b => cases b <;> rfl
  | httpError c t => rfl
  | raise e => rfl

/-- Claim C9: at every point observable between iterations of the main
loop the two global lists have equal length, and every step either
appends to both together — the appended image and path being the two
components produced by one and the same `take_screenshot` call on the
current batch — or clears both together, or touches neither. -/
theorem c9_parallel_lists (evs : List (Env × Signal)) (e : Env) (sig : Signal) :
    (runSignals initState evs).1.screenshots.length
      = (runSignals initState evs).1.screenshot_paths.length
    ∧ ((∃ b64 size filepath,
          take_screenshot e.now e.grab (runSignals initState evs).1.screenshots
            = (some (b64, size, filepath), [Event.save filepath])
          ∧ (mainStep e (runSignals initState evs).1 sig).1.screenshots
              = (runSignals initState evs).1.screenshots ++ [b64]
          ∧ (mainStep e (runSignals initState evs).1 sig).1.screenshot_paths
              = (runSignals initState evs).1.screenshot_paths ++ [filepath])
      ∨ ((mainStep e (runSignals initState evs).1 sig).1.screenshots = []
          ∧ (mainStep e (runSignals initState evs).1 sig).1.screenshot_paths = [])
      ∨ ((mainStep e (runSignals initState evs).1 sig).1.screenshots
            = (runSignals initState evs).1.screenshots
          ∧ (mainStep e (runSignals initState evs).1 sig).1.screenshot_paths
              = (runSignals initState evs).1.screenshot_paths)) := by
  obtain ⟨hlen, hidle⟩ :=
    runSignals_stateInv evs initState ⟨rfl, fun _ => ⟨rfl, rfl⟩⟩
  refine ⟨hlen, ?_⟩
  generalize hS : (runSignals initState evs).1 = s at *
  cases sig with
  | captureOne =>
    cases hcol : s.is_collecting with
    | false =>
      right; right
      unfold mainStep
      rw [hcol]
      exact ⟨rfl, rfl⟩
    | true =>
      unfold mainStep
      rw [hcol]
      cases hg : e.grab with
      | none =>
        right; right
        exact ⟨rfl, rfl⟩
      | some v =>
        obtain ⟨b, w, hh⟩ := v
        left
        exact ⟨b, (w, hh), screenshotFilepath e.now (s.screenshots.length + 1),
          rfl, rfl, rfl⟩
  | toggle =>
    cases hcol : s.is_collecting with
    | true =>
      unfold mainStep
      rw [hcol]
      unfold process_screenshots
      by_cases he : s.screenshots = []
      · right; right
        rw [if_pos he]
        exact ⟨rfl, rfl⟩
      · right; left
        rw [if_neg he]
        exact ⟨rfl, rfl⟩
    | false =>
      obtain ⟨he, hp⟩ := hidle hcol
      unfold mainStep
      rw [hcol]
      cases hg : e.grab with
      | none =>
        right; left
        exact ⟨rfl, rfl⟩
      | some v =>
        obtain ⟨b, w, hh⟩ := v
        left
        refine ⟨b, (w, hh), screenshotFilepath e.now (s.screenshots.length + 1),
          rfl, ?_, ?_⟩
        · rw [he]
          rfl
        · rw [he, hp]
          rfl

/-- Claim C10: a message of at most 4000 characters (including exactly
4000) is sent as a single post whose text is the input unchanged — no
part header, no splitting, and no inter-part sleep. -/
theorem c10_short_message_single_send (outs : Nat → PostOutcome) (msg : List Char)
    (h : msg.length ≤ 4000) :
    send_text_to_telegram outs msg = [Event.post msg] := by
  unfold send_text_to_telegram
  rw [if_neg (by omega)]

/-- Witness for C10 at the concrete two-character message. -/
theorem c10_witness :
    ("hi".data.length ≤ 4000)
    ∧ send_text_to_telegram (fun _ => PostOutcome.status 200) "hi".data
        = [Event.post "hi".data] :=
  ⟨by decide,
    c10_short_message_single_send (fun _ => PostOutcome.status 200) "hi".data (by decide)⟩
